import Mathlib

/-
A shallow embedding of the cmdapp package (js-arias/cmdapp).

The package hosts a set of named subcommands behind a registry
(`commands : map[string]Command` in command.go), with `Add` inserting by
lowercased name (panicking on duplicates), `Run` dispatching the first
free argument, and a built-in `help` command that renders per-command
help and can generate a doc.go file.

Modelling conventions:
  - Go strings are Lean `String`s; `strings.ToLower` is modelled
    character-wise (`toLowerStr`), `strings.TrimSpace` as `trimStr`,
    and `sort.Strings` as insertion sort by the lexicographic order on
    the character lists (UTF-8 byte order and code-point order agree).
  - The Go map is an association list `Registry`; Go map iteration
    order is the list order (arbitrary, hence quantified or permuted in
    the theorems; `Add` maintains key uniqueness).
  - `panic` (from `Add`) is modelled as `Except.error`; a nil-interface
    method call (indexing the map with an absent key and then calling a
    method) is a `panicked` flag that truncates subsequent output; the
    Go runtime terminates a panicking process with exit status 2.
  - Writing to os.Stdout / os.Stderr / the created doc.go file is
    modelled by accumulating the written bytes in the result records.
  - Flag parsing (the flag package) is an external collaborator: the
    embedding passes the argument tail through unchanged, which is the
    behaviour on argument lists that carry no flags.
-/

namespace Cmdapp

/-- Result of one command `Run` callback: accumulated standard output,
the content written to doc.go (if any), the returned error (if any), and
whether the callback panicked. -/
structure RunRes where
  stdout : String
  docFile : Option String
  err : Option String
  panicked : Bool
deriving DecidableEq

/-- The `Command` interface of command.go: name, argument synopsis,
short and long descriptions, runnability, and the run callback.
(`Register` installs flags on a flag set; flags are out of scope.) -/
structure Command where
  name : String
  argsLine : String
  short : String
  long : String
  runnable : Bool
  run : List String → RunRes

/-- The registry `commands : map[string]Command` as an association list;
the list order stands for the (arbitrary) map iteration order. -/
abbrev Registry := List (String × Command)

/-- Go map indexing `commands[k]` with its `ok` flag. -/
def lookupReg : Registry → String → Option Command
  | [], _ => none
  | (k, c) :: t, a => if k = a then some c else lookupReg t a

/-- Go `strings.ToLower`, character-wise (ASCII letters). -/
def toLowerStr (s : String) : String :=
  ⟨s.data.map Char.toLower⟩

/-- Go `strings.TrimSpace`: drop whitespace from both ends. -/
def trimStr (s : String) : String :=
  ⟨((s.data.dropWhile Char.isWhitespace).reverse.dropWhile Char.isWhitespace).reverse⟩

/-- `capitalize` from app.go: upper-case the first character. -/
def capitalize (s : String) : String :=
  match s.data with
  | [] => s
  | ch :: t => ⟨ch.toUpper :: t⟩

/-- `Add` from command.go: insert under the lowercased name, or panic
(modelled as `Except.error` carrying the panic message) on a duplicate. -/
def Add (reg : Registry) (c : Command) : Except String Registry :=
  match lookupReg reg (toLowerStr c.name) with
  | some _ => .error ("cmdapp: Repeated command name: " ++ toLowerStr c.name ++ " " ++ c.short)
  | none => .ok (reg ++ [(toLowerStr c.name, c)])

/-- Go fmt `%-16s`: left-justify in a field of 16 runes. -/
def padRight (s : String) (n : Nat) : String :=
  s ++ ⟨List.replicate (n - s.length) ' '⟩

/-- `documentation` from command.go: capitalized short description, a
usage synopsis only for runnable commands, then the trimmed long
description. -/
def docOfCommand (prog : String) (c : Command) : String :=
  capitalize c.short ++ "\n\n" ++
  (if c.runnable then "Usage:\n\n    " ++ prog ++ " " ++ c.name ++ " " ++ c.argsLine ++ "\n\n"
   else "") ++
  trimStr c.long ++ "\n\n"

/-- Lexicographic comparison of character lists (Go string `<=`,
which `sort.Strings` sorts by; UTF-8 byte order equals this order). -/
def charsLe : List Char → List Char → Bool
  | [], _ => true
  | _ :: _, [] => false
  | a :: as, b :: bs =>
    if a < b then true
    else if a = b then charsLe as bs
    else false

/-- The sorting relation of `sort.Strings`. -/
def strLeR (a b : String) : Prop := charsLe a.data b.data = true

instance : DecidableRel strLeR := fun a b => by
  unfold strLeR
  infer_instance

/-- Go `sort.Strings`. -/
def sortStrings (l : List String) : List String :=
  List.insertionSort strLeR l

/-- Output written so far, and whether a nil-interface panic occurred
(truncating everything after it). -/
structure WriteRes where
  out : String
  panicked : Bool
deriving DecidableEq

/-- One section of `printUsage` (command.go): for each sorted name look
the command up again in the map (a missing key yields a nil interface
whose method call panics) and print the aligned name/short line when the
runnability matches `want`. -/
def sectionLines (reg : Registry) (names : List String) (want : Bool) : WriteRes :=
  match names with
  | [] => ⟨"", false⟩
  | nm :: t =>
    match lookupReg reg nm with
    | none => ⟨"", true⟩
    | some c =>
      let line := if c.runnable = want then "    " ++ padRight c.name 16 ++ " " ++ c.short ++ "\n"
                  else ""
      let r := sectionLines reg t want
      ⟨line ++ r.out, r.panicked⟩

/-- `printUsage` from command.go: application short description, the
invocation synopsis, the runnable commands in sorted name order, and the
non-runnable help topics in sorted name order. -/
def printUsage (prog appShort : String) (reg : Registry) : WriteRes :=
  let names := sortStrings (reg.map (fun p => p.2.name))
  let topics := reg.any (fun p => !p.2.runnable)
  let head := appShort ++ "\n\n" ++
    "Usage:\n\n    " ++ prog ++ " [help] <command> [<args>...]\n\n" ++
    "The commands are:\n"
  let s1 := sectionLines reg names true
  if s1.panicked then ⟨head ++ s1.out, true⟩
  else
    let mid := "\nUse \x27" ++ prog ++ " help <command>\x27 for more information about a command.\n\n"
    if !topics then ⟨head ++ s1.out ++ mid, false⟩
    else
      let s2 := sectionLines reg names false
      ⟨head ++ s1.out ++ mid ++ "Additional help topics:\n\n" ++ s2.out ++
        (if s2.panicked then ""
         else "\nUse \x27" ++ prog ++ " help <topic>\x27 for more information about that topic.\n\n"),
       s2.panicked⟩

/-- The `goHead` literal of command.go. -/
def goHead : String := "// Authomatically generated doc.go file for use with godoc.\n\n/*"

/-- The `goFoot` literal of command.go. -/
def goFoot : String := "*/\npackage main"

/-- The per-command loop of the doc.go branch of help.Run: for each
sorted name, `documentation(f, commands[c])`; an absent key is a nil
interface whose first method call (`c.Short()`) panics before writing. -/
def docLoop (prog : String) (reg : Registry) (names : List String) : WriteRes :=
  match names with
  | [] => ⟨"", false⟩
  | nm :: t =>
    match lookupReg reg nm with
    | none => ⟨"", true⟩
    | some c =>
      let r := docLoop prog reg t
      ⟨docOfCommand prog c ++ r.out, r.panicked⟩

/-- `help.Run` from command.go. `prog` and `appShort` are the package
globals `Name` and `Short`; `reg` is the `commands` map. The doc.go
branch assumes `os.Create` succeeds (file-system errors are out of
scope). -/
def helpRun (prog appShort : String) (reg : Registry) (args : List String) : RunRes :=
  match args with
  | [] =>
    let u := printUsage prog appShort reg
    ⟨u.out, none, none, u.panicked⟩
  | [arg] =>
    if arg = "documentation" then
      let head := trimStr goHead ++ "\n"
      let u := printUsage prog appShort reg
      if u.panicked then ⟨"", some (head ++ u.out), none, true⟩
      else
        let names := sortStrings (reg.map (fun p => p.2.name))
        let d := docLoop prog reg names
        ⟨"", some (head ++ u.out ++ d.out ++
               (if d.panicked then "" else "\n" ++ trimStr goFoot)), none, d.panicked⟩
    else
      match lookupReg reg arg with
      | none => ⟨"", none, some ("help: unknown help topic: " ++ arg), false⟩
      | some c => ⟨docOfCommand prog c, none, none, false⟩
  | _ => ⟨"", none, some "help: too many arguments.", false⟩

/-- Outcome of one dispatch: what was written to standard output and
standard error, the exit status (`some n` when `os.Exit(n)` runs or the
process dies panicking; `none` when `Run` returns normally), the doc.go
content (if written), and the looked-up key of the command whose run
callback was invoked (if any). -/
structure Outcome where
  stdout : String
  stderr : String
  exit : Option Nat
  docFile : Option String
  invoked : Option String
deriving DecidableEq

/-- The unknown-subcommand diagnostic of `Run` (command.go). -/
def unknownMsg (prog a : String) : String :=
  prog ++ ": unknown subcommand " ++ a ++ "\nRun \x27" ++ prog ++ " help\x27 for usage.\n"

/-- `Run` from command.go: empty arguments print the usage to standard
error and exit 1; a first argument that is absent from the map or names
a non-runnable command prints the unknown-subcommand diagnostic and
exits 1; otherwise the command runs on the argument tail and a reported
error is printed as `prog: name: err` followed by exit 1. -/
def Run (prog appShort : String) (reg : Registry) (args : List String) : Outcome :=
  match args with
  | [] =>
    let u := printUsage prog appShort reg
    ⟨"", u.out, some (if u.panicked then 2 else 1), none, none⟩
  | a :: rest =>
    match lookupReg reg a with
    | none => ⟨"", unknownMsg prog a, some 1, none, none⟩
    | some c =>
      if c.runnable then
        let r := c.run rest
        if r.panicked then ⟨r.stdout, "", some 2, r.docFile, some a⟩
        else
          match r.err with
          | some e =>
            ⟨r.stdout, prog ++ ": " ++ c.name ++ ": " ++ e ++ "\n", some 1, r.docFile, some a⟩
          | none => ⟨r.stdout, "", none, r.docFile, some a⟩
      else ⟨"", unknownMsg prog a, some 1, none, none⟩

/-- The `Long` text of the built-in help command. -/
def helpCmdLong : String :=
  "\nCommand help displays help information for a command or a help topic.\n\nWith no arguments prints to the standard output the list of available commands\nand help topics.\n"

/-- The built-in `help` command (command.go) as a registry entry: its
run callback is `help.Run` reading the registry snapshot `reg`. -/
def mkHelpCommand (prog appShort : String) (reg : Registry) : Command :=
  { name := "help"
    argsLine := "[<command>]"
    short := "displays help information about " ++ prog
    long := helpCmdLong
    runnable := true
    run := fun args => helpRun prog appShort reg args }

/-! ### Registry lookup lemmas -/

theorem lookup_append_last (reg : Registry) (key : String) (c : Command)
    (h : lookupReg reg key = none) :
    lookupReg (reg ++ [(key, c)]) key = some c := by
  induction reg with
  | nil => simp [lookupReg]
  | cons p t ih =>
    obtain ⟨k, d⟩ := p
    simp only [lookupReg, List.cons_append] at h ⊢
    by_cases hk : k = key
    · simp [hk] at h
    · simpa [hk] using ih (by simpa [hk] using h)

theorem lookup_append_ne (reg : Registry) (key k : String) (c : Command)
    (h : k ≠ key) :
    lookupReg (reg ++ [(key, c)]) k = lookupReg reg k := by
  induction reg with
  | nil =>
    simp only [List.nil_append, lookupReg]
    rw [if_neg (fun hk => h hk.symm)]
  | cons p t ih =>
    obtain ⟨k0, d⟩ := p
    simp only [lookupReg, List.cons_append]
    by_cases hk : k0 = k
    · simp [hk]
    · simpa [hk] using ih

theorem lookup_mem (reg : Registry) (k : String) (c : Command)
    (h : lookupReg reg k = some c) : (k, c) ∈ reg := by
  induction reg with
  | nil => simp [lookupReg] at h
  | cons p t ih =>
    obtain ⟨k0, d⟩ := p
    simp only [lookupReg] at h
    by_cases hk : k0 = k
    · simp [hk] at h
      simp [hk, h]
    · simp [hk] at h
      exact List.mem_cons_of_mem _ (ih h)

theorem lookup_none_iff (reg : Registry) (k : String) :
    lookupReg reg k = none ↔ k ∉ reg.map Prod.fst := by
  induction reg with
  | nil => simp [lookupReg]
  | cons p t ih =>
    obtain ⟨k0, d⟩ := p
    by_cases hk : k0 = k
    · subst hk
      simp [lookupReg]
    · simp only [lookupReg, if_neg hk, List.map_cons, List.mem_cons]
      rw [ih]
      constructor
      · intro hn
        rintro (h1 | h2)
        · exact hk h1.symm
        · exact hn h2
      · intro hn h2
        exact hn (Or.inr h2)

theorem mem_lookup (reg : Registry) (k : String) (c : Command)
    (hnd : (reg.map Prod.fst).Nodup) (h : (k, c) ∈ reg) :
    lookupReg reg k = some c := by
  induction reg with
  | nil => simp at h
  | cons p t ih =>
    obtain ⟨k0, d⟩ := p
    simp only [List.map_cons, List.nodup_cons] at hnd
    rcases List.mem_cons.mp h with h1 | h1
    · injection h1 with hk hc
      subst hk
      subst hc
      simp [lookupReg]
    · have hk0 : k0 ≠ k := by
        intro hk
        exact hnd.1 (hk ▸ (List.mem_map.mpr ⟨(k, c), h1, rfl⟩))
      simp only [lookupReg, if_neg hk0]
      exact ih hnd.2 h1

/-! ### Test commands used by the concrete witnesses -/

/-- A runnable command used by witnesses. -/
def tcB : Command :=
  ⟨"build", "[-v] <dir>", "compiles sources", "\n Long build text \n", true,
   fun _ => ⟨"", none, none, false⟩⟩

/-- A non-runnable help topic used by witnesses. -/
def tcW : Command :=
  ⟨"workflow", "", "describes the build workflow", "wf long", false,
   fun _ => ⟨"", none, none, false⟩⟩

/-- A second command whose name collides with `tcB`. -/
def tcDup : Command :=
  ⟨"build", "", "builds twice", "", true, fun _ => ⟨"", none, none, false⟩⟩

/-- A runnable command whose run callback reports an error. -/
def tcBoom : Command :=
  ⟨"boom", "", "always fails", "", true, fun _ => ⟨"", none, some "kaboom", false⟩⟩

/-- A registered command (or topic) named `documentation`. -/
def tcDoc : Command :=
  ⟨"documentation", "", "about the docs", "doc long", false,
   fun _ => ⟨"", none, none, false⟩⟩

/-- A runnable command whose `Name()` contains an uppercase letter. -/
def tcUp : Command :=
  ⟨"Build", "", "compiles loudly", "", true, fun _ => ⟨"", none, none, false⟩⟩

/-- A two-entry witness registry: one command, one topic. -/
def tReg : Registry := [("build", tcB), ("workflow", tcW)]

/-! ### C1, C2: Add and lookup -/

/-- Claim C1: after `Add` succeeds, looking the command up under its
lowercased name yields the very same descriptor, and every other key
resolves exactly as before the `Add`. -/
theorem add_then_lookup (reg reg2 : Registry) (c : Command)
    (h : Add reg c = .ok reg2) :
    lookupReg reg2 (toLowerStr c.name) = some c ∧
      ∀ k, k ≠ toLowerStr c.name → lookupReg reg2 k = lookupReg reg k := by
  unfold Add at h
  rcases hl : lookupReg reg (toLowerStr c.name) with _ | d
  · rw [hl] at h
    simp only [Except.ok.injEq] at h
    subst h
    exact ⟨lookup_append_last reg _ c hl,
      fun k hk => lookup_append_ne reg _ k c hk⟩
  · rw [hl] at h
    simp at h

/-- Witness for C1 at a concrete input. -/
theorem add_then_lookup_witness :
    Add [] tcB = .ok [("build", tcB)] ∧
      (lookupReg [("build", tcB)] (toLowerStr tcB.name) = some tcB ∧
        ∀ k, k ≠ toLowerStr tcB.name →
          lookupReg [("build", tcB)] k = lookupReg [] k) :=
  ⟨by rfl, add_then_lookup [] [("build", tcB)] tcB (by rfl)⟩

/-- Claim C2: `Add` of a command whose lowercased name is already a key
aborts at registration time (the Go panic, modelled as `Except.error`)
with a diagnostic naming the duplicate, instead of returning normally. -/
theorem add_duplicate_fails (reg : Registry) (c d : Command)
    (h : lookupReg reg (toLowerStr c.name) = some d) :
    Add reg c =
      .error ("cmdapp: Repeated command name: " ++ toLowerStr c.name ++ " " ++ c.short) := by
  unfold Add
  rw [h]

/-- Witness for C2 at a concrete input. -/
theorem add_duplicate_fails_witness :
    lookupReg [("build", tcB)] (toLowerStr tcDup.name) = some tcB ∧
      Add [("build", tcB)] tcDup =
        .error ("cmdapp: Repeated command name: " ++ toLowerStr tcDup.name ++ " " ++ tcDup.short) :=
  ⟨by rfl, add_duplicate_fails [("build", tcB)] tcDup tcB (by rfl)⟩

/-! ### C3, C4, C5: dispatch outcomes -/

/-- Claim C3: a first argument that is absent from the registry, or
present but non-runnable, makes `Run` print the unknown-subcommand
diagnostic (containing that argument) to standard error and exit 1,
without invoking any run callback. -/
theorem run_unknown_subcommand (prog appShort a : String) (reg : Registry)
    (rest : List String)
    (h : lookupReg reg a = none ∨ ∃ c, lookupReg reg a = some c ∧ c.runnable = false) :
    Run prog appShort reg (a :: rest) =
      ⟨"", prog ++ ": unknown subcommand " ++ a ++ "\nRun \x27" ++ prog ++
         " help\x27 for usage.\n", some 1, none, none⟩ := by
  rcases h with h | ⟨c, hc, hr⟩
  · simp only [Run, h]
    rfl
  · simp only [Run, hc, hr]
    rfl

/-- Witness for C3 at a concrete input. -/
theorem run_unknown_subcommand_witness :
    lookupReg tReg "frobnicate" = none ∧
      Run "app" "sh" tReg ["frobnicate"] =
        ⟨"", "app" ++ ": unknown subcommand " ++ "frobnicate" ++ "\nRun \x27" ++ "app" ++
           " help\x27 for usage.\n", some 1, none, none⟩ :=
  ⟨by rfl, run_unknown_subcommand "app" "sh" "frobnicate" tReg [] (Or.inl (by rfl))⟩

/-- Counterexample to C4 as stated: the exit status for a
command-reported runtime error is `1`, and the exit status for an
unknown subcommand is also `1` — the two are not distinct, contradicting
the claimed runtime-error = 1 / usage-error = 2 split. -/
theorem run_error_exit_not_distinct :
    (Run "app" "sh" [("boom", tcBoom)] ["boom"]).exit = some 1 ∧
      (Run "app" "sh" [("boom", tcBoom)] ["nope"]).exit = some 1 ∧
      (Run "app" "sh" [("boom", tcBoom)] []).exit = some 1 := by
  refine ⟨by decide, by decide, by decide⟩

/-- Claim C4 (amended): when a registered runnable command's run
callback reports an error, `Run` prints `<program> <command>: <error>`
to standard error and exits with status 1 — the same status the code
uses for a missing or unknown subcommand; there is no distinct
usage-error exit code. -/
theorem run_error_reports (prog appShort a e : String) (reg : Registry)
    (rest : List String) (c : Command)
    (hc : lookupReg reg a = some c) (hr : c.runnable = true)
    (hp : (c.run rest).panicked = false) (he : (c.run rest).err = some e) :
    Run prog appShort reg (a :: rest) =
      ⟨(c.run rest).stdout, prog ++ ": " ++ c.name ++ ": " ++ e ++ "\n", some 1,
       (c.run rest).docFile, some a⟩ := by
  simp only [Run, hc, hr, hp, he]
  rfl

/-- Witness for C4 (amended) at a concrete input. -/
theorem run_error_reports_witness :
    lookupReg [("boom", tcBoom)] "boom" = some tcBoom ∧
      tcBoom.runnable = true ∧
      (tcBoom.run []).panicked = false ∧
      (tcBoom.run []).err = some "kaboom" ∧
      Run "app" "sh" [("boom", tcBoom)] ["boom"] =
        ⟨(tcBoom.run []).stdout, "app" ++ ": " ++ tcBoom.name ++ ": " ++ "kaboom" ++ "\n",
         some 1, (tcBoom.run []).docFile, some "boom"⟩ :=
  ⟨by rfl, by rfl, by rfl, by rfl,
   run_error_reports "app" "sh" "boom" "kaboom" [("boom", tcBoom)] [] tcBoom
      (by rfl) (by rfl) (by rfl) (by rfl)⟩

/-- Claim C5: on the empty argument list, `Run` writes the top-level
usage listing to standard error only (standard output stays empty),
exits with a non-zero status, and no command run callback is invoked. -/
theorem run_empty_args_usage (prog appShort : String) (reg : Registry) :
    (Run prog appShort reg []).stdout = "" ∧
      (Run prog appShort reg []).stderr = (printUsage prog appShort reg).out ∧
      ((Run prog appShort reg []).exit = some 1 ∨ (Run prog appShort reg []).exit = some 2) ∧
      (Run prog appShort reg []).invoked = none := by
  simp only [Run]
  by_cases hp : (printUsage prog appShort reg).panicked
  · simp [hp]
  · simp [hp]

/-! ### C6: per-command help rendering -/

/-- Counterexample to C6 as stated: for a registered topic named
`documentation`, `help documentation` renders no detailed help at all
(standard output stays empty and the doc.go file is written instead),
even though the topic's rendered help would be non-empty. -/
theorem help_command_doc_shadowed :
    (helpRun "app" "sh" [("documentation", tcDoc)] ["documentation"]).stdout = "" ∧
      (helpRun "app" "sh" [("documentation", tcDoc)] ["documentation"]).docFile.isSome
        = true ∧
      docOfCommand "app" tcDoc ≠ "" := by
  refine ⟨by decide, by decide, by decide⟩

/-- Claim C6 (amended): for every registered command looked up under a
key other than `documentation`, the detailed help printed by
`help <key>` is exactly the capitalized short description, then — only
if the command is runnable — the usage synopsis line, then the long
description with surrounding whitespace trimmed; for a non-runnable
topic the synopsis block is the empty string. -/
theorem help_renders_command_doc (prog appShort k : String) (reg : Registry)
    (c : Command) (hk : k ≠ "documentation") (hc : lookupReg reg k = some c) :
    helpRun prog appShort reg [k] =
      ⟨capitalize c.short ++ "\n\n" ++
         (if c.runnable then
            "Usage:\n\n    " ++ prog ++ " " ++ c.name ++ " " ++ c.argsLine ++ "\n\n"
          else "") ++
         trimStr c.long ++ "\n\n", none, none, false⟩ := by
  simp only [helpRun, if_neg hk, hc]
  rfl

/-- Witness for C6 (amended) at a concrete input: a non-runnable topic,
whose rendered help carries no synopsis line. -/
theorem help_renders_command_doc_witness :
    ("workflow" : String) ≠ "documentation" ∧
      lookupReg tReg "workflow" = some tcW ∧
      helpRun "app" "sh" tReg ["workflow"] =
        ⟨capitalize tcW.short ++ "\n\n" ++
           (if tcW.runnable then
              "Usage:\n\n    " ++ "app" ++ " " ++ tcW.name ++ " " ++ tcW.argsLine ++ "\n\n"
            else "") ++
           trimStr tcW.long ++ "\n\n", none, none, false⟩ ∧
      helpRun "app" "sh" tReg ["workflow"] =
        ⟨"Describes the build workflow\n\nwf long\n\n", none, none, false⟩ :=
  ⟨by decide, by rfl,
   help_renders_command_doc "app" "sh" "workflow" tReg tcW (by decide) (by rfl),
   by decide⟩

/-! ### C7: help with too many arguments -/

/-- The registry used by the C7 witness: the help command plus the two
test commands; the help command's snapshot is the same base registry. -/
def regAllC7 : Registry := ("help", mkHelpCommand "app" "sh" tReg) :: tReg

/-- Claim C7: the help command given two or more arguments reports the
`too many arguments` error and renders no help content, and a dispatch
of that invocation prints the diagnostic to standard error and exits
with a non-zero status. -/
theorem help_too_many_args (prog appShort : String) (regSnap regAll : Registry)
    (a b : String) (rest : List String)
    (hh : lookupReg regAll "help" = some (mkHelpCommand prog appShort regSnap)) :
    helpRun prog appShort regSnap (a :: b :: rest) =
      ⟨"", none, some "help: too many arguments.", false⟩ ∧
      Run prog appShort regAll ("help" :: a :: b :: rest) =
        ⟨"", prog ++ ": " ++ "help" ++ ": " ++ "help: too many arguments." ++ "\n",
         some 1, none, some "help"⟩ := by
  refine ⟨rfl, ?_⟩
  simp only [Run, hh]
  rfl

/-- Witness for C7 at a concrete input. -/
theorem help_too_many_args_witness :
    lookupReg regAllC7 "help" = some (mkHelpCommand "app" "sh" tReg) ∧
      helpRun "app" "sh" tReg ["x", "y"] =
        ⟨"", none, some "help: too many arguments.", false⟩ ∧
      Run "app" "sh" regAllC7 ["help", "x", "y"] =
        ⟨"", "app" ++ ": " ++ "help" ++ ": " ++ "help: too many arguments." ++ "\n",
         some 1, none, some "help"⟩ :=
  ⟨by rfl,
   (help_too_many_args "app" "sh" tReg regAllC7 "x" "y" [] (by rfl)).1,
   (help_too_many_args "app" "sh" tReg regAllC7 "x" "y" [] (by rfl)).2⟩

/-! ### The sort.Strings order: total, transitive, antisymmetric -/

theorem charsLe_total : ∀ a b : List Char, charsLe a b = true ∨ charsLe b a = true
  | [], _ => Or.inl rfl
  | _ :: _, [] => Or.inr rfl
  | a :: as, b :: bs => by
    rcases lt_trichotomy a b with h | h | h
    · left
      simp [charsLe, h]
    · subst h
      rcases charsLe_total as bs with ih | ih
      · left
        simpa [charsLe, lt_irrefl] using ih
      · right
        simpa [charsLe, lt_irrefl] using ih
    · right
      simp [charsLe, h]

theorem charsLe_trans : ∀ a b c : List Char,
    charsLe a b = true → charsLe b c = true → charsLe a c = true
  | [], _, _, _, _ => rfl
  | _ :: _, [], _, h1, _ => by simp [charsLe] at h1
  | _ :: _, _ :: _, [], _, h2 => by simp [charsLe] at h2
  | a :: as, b :: bs, c :: cs, h1, h2 => by
    simp only [charsLe] at h1 h2 ⊢
    by_cases hab : a < b
    · by_cases hbc : b < c
      · simp [lt_trans hab hbc]
      · by_cases hec : b = c
        · subst hec
          simp [hab]
        · simp [hbc, hec] at h2
    · by_cases heb : a = b
      · subst heb
        by_cases hbc : a < c
        · simp [hbc]
        · by_cases hec : a = c
          · subst hec
            simp only [lt_irrefl, if_false, if_pos rfl] at h1 h2 ⊢
            exact charsLe_trans as bs cs h1 h2
          · simp [hbc, hec] at h2
      · simp [hab, heb] at h1

theorem charsLe_antisymm : ∀ a b : List Char,
    charsLe a b = true → charsLe b a = true → a = b
  | [], [], _, _ => rfl
  | [], _ :: _, _, h2 => by simp [charsLe] at h2
  | _ :: _, [], h1, _ => by simp [charsLe] at h1
  | a :: as, b :: bs, h1, h2 => by
    simp only [charsLe] at h1 h2
    by_cases hab : a < b
    · have hba : ¬ b < a := lt_asymm hab
      have heb : ¬ b = a := fun h => absurd (h ▸ hab) (lt_irrefl _)
      simp [hba, heb] at h2
    · by_cases heb : a = b
      · subst heb
        simp only [lt_irrefl, if_false, if_pos rfl] at h1 h2
        rw [charsLe_antisymm as bs h1 h2]
      · simp [hab, heb] at h1

theorem strExt (a b : String) (h : a.data = b.data) : a = b := by
  cases a
  cases b
  exact congrArg String.mk h

instance : IsTotal String strLeR := ⟨fun a b => charsLe_total a.data b.data⟩

instance : IsTrans String strLeR := ⟨fun a b c => charsLe_trans a.data b.data c.data⟩

instance : IsAntisymm String strLeR :=
  ⟨fun a b h1 h2 => strExt a b (charsLe_antisymm a.data b.data h1 h2)⟩

theorem sortStrings_perm_eq (l1 l2 : List String) (h : l1.Perm l2) :
    sortStrings l1 = sortStrings l2 :=
  List.eq_of_perm_of_sorted
    ((List.perm_insertionSort strLeR l1).trans (h.trans (List.perm_insertionSort strLeR l2).symm))
    (List.sorted_insertionSort strLeR l1) (List.sorted_insertionSort strLeR l2)

/-! ### Lookup and rendering are invariant under map-iteration order -/

theorem lookup_perm (reg1 reg2 : Registry) (hperm : reg1.Perm reg2)
    (hnd : (reg1.map Prod.fst).Nodup) (k : String) :
    lookupReg reg1 k = lookupReg reg2 k := by
  have hnd2 : (reg2.map Prod.fst).Nodup := ((hperm.map Prod.fst).nodup_iff).mp hnd
  rcases h1 : lookupReg reg1 k with _ | c
  · rcases h2 : lookupReg reg2 k with _ | c
    · rfl
    · have hm := lookup_mem reg2 k c h2
      have hin : k ∈ reg1.map Prod.fst :=
        List.mem_map.mpr ⟨(k, c), hperm.mem_iff.mpr hm, rfl⟩
      rw [lookup_none_iff] at h1
      exact absurd hin h1
  · have hm := lookup_mem reg1 k c h1
    exact (mem_lookup reg2 k c hnd2 (hperm.mem_iff.mp hm)).symm

theorem any_perm {α : Type} (l1 l2 : List α) (h : l1.Perm l2) (f : α → Bool) :
    l1.any f = l2.any f := by
  cases hx : l2.any f
  · rw [Bool.eq_false_iff]
    intro hc
    rcases List.any_eq_true.mp hc with ⟨x, hm, hf⟩
    have h2 : l2.any f = true := List.any_eq_true.mpr ⟨x, h.mem_iff.mp hm, hf⟩
    rw [hx] at h2
    cases h2
  · rcases List.any_eq_true.mp hx with ⟨x, hm, hf⟩
    exact List.any_eq_true.mpr ⟨x, h.mem_iff.mpr hm, hf⟩

theorem sectionLines_congr (reg1 reg2 : Registry)
    (hl : ∀ k, lookupReg reg1 k = lookupReg reg2 k) :
    ∀ (names : List String) (want : Bool),
      sectionLines reg1 names want = sectionLines reg2 names want := by
  intro names want
  induction names with
  | nil => rfl
  | cons nm t ih =>
    rcases hres : lookupReg reg2 nm with _ | c
    · have h1 : lookupReg reg1 nm = none := by rw [hl nm, hres]
      simp only [sectionLines, h1, hres]
    · have h1 : lookupReg reg1 nm = some c := by rw [hl nm, hres]
      simp only [sectionLines, h1, hres, ih]

theorem docLoop_congr (prog : String) (reg1 reg2 : Registry)
    (hl : ∀ k, lookupReg reg1 k = lookupReg reg2 k) :
    ∀ names : List String, docLoop prog reg1 names = docLoop prog reg2 names := by
  intro names
  induction names with
  | nil => rfl
  | cons nm t ih =>
    rcases hres : lookupReg reg2 nm with _ | c
    · have h1 : lookupReg reg1 nm = none := by rw [hl nm, hres]
      simp only [docLoop, h1, hres]
    · have h1 : lookupReg reg1 nm = some c := by rw [hl nm, hres]
      simp only [docLoop, h1, hres, ih]

theorem printUsage_perm (prog appShort : String) (reg1 reg2 : Registry)
    (hperm : reg1.Perm reg2) (hnd : (reg1.map Prod.fst).Nodup) :
    printUsage prog appShort reg1 = printUsage prog appShort reg2 := by
  have hnames : sortStrings (reg1.map (fun p => p.2.name)) =
      sortStrings (reg2.map (fun p => p.2.name)) :=
    sortStrings_perm_eq _ _ (hperm.map _)
  have htop : reg1.any (fun p => !p.2.runnable) = reg2.any (fun p => !p.2.runnable) :=
    any_perm _ _ hperm _
  have hl : ∀ k, lookupReg reg1 k = lookupReg reg2 k := lookup_perm reg1 reg2 hperm hnd
  simp only [printUsage, hnames, htop, sectionLines_congr reg1 reg2 hl]

/-! ### C8, C9: the doc.go generation branch -/

/-- Claim C8: for a fixed registry content, the `help documentation`
output is a deterministic function of the registered commands: any two
iteration orders of the same map (permutations of the same entries, with
the keys unique as in a Go map) produce byte-identical doc.go content,
because the per-command sections are emitted in sorted name order. -/
theorem help_doc_deterministic (prog appShort : String) (reg1 reg2 : Registry)
    (hperm : reg1.Perm reg2) (hnd : (reg1.map Prod.fst).Nodup) :
    helpRun prog appShort reg1 ["documentation"] =
      helpRun prog appShort reg2 ["documentation"] := by
  have hu : printUsage prog appShort reg1 = printUsage prog appShort reg2 :=
    printUsage_perm prog appShort reg1 reg2 hperm hnd
  have hnames : sortStrings (reg1.map (fun p => p.2.name)) =
      sortStrings (reg2.map (fun p => p.2.name)) :=
    sortStrings_perm_eq _ _ (hperm.map _)
  have hl : ∀ k, lookupReg reg1 k = lookupReg reg2 k := lookup_perm reg1 reg2 hperm hnd
  simp only [helpRun, hu, hnames, docLoop_congr prog reg1 reg2 hl, hl]

/-- Witness for C8 at a concrete input: the two-entry registry in its
two iteration orders. -/
theorem help_doc_deterministic_witness :
    tReg.Perm [("workflow", tcW), ("build", tcB)] ∧
      (tReg.map Prod.fst).Nodup ∧
      helpRun "app" "sh" tReg ["documentation"] =
        helpRun "app" "sh" [("workflow", tcW), ("build", tcB)] ["documentation"] := by
  have hp : tReg.Perm [("workflow", tcW), ("build", tcB)] := List.Perm.swap _ _ _
  exact ⟨hp, by decide, help_doc_deterministic "app" "sh" tReg _ hp (by decide)⟩

/-- Claim C9: for every registry — whatever it maps the key
`documentation` to — `help documentation` takes the doc-file branch:
doc.go content is produced, nothing is printed to standard output, and
no unknown-topic error is reported, so a registered command of that name
never has its help printed this way. -/
theorem help_doc_branch_always (prog appShort : String) (reg : Registry) :
    (helpRun prog appShort reg ["documentation"]).docFile.isSome = true ∧
      (helpRun prog appShort reg ["documentation"]).stdout = "" ∧
      (helpRun prog appShort reg ["documentation"]).err = none := by
  simp only [helpRun]
  by_cases hp : (printUsage prog appShort reg).panicked
  · simp [hp]
  · simp [hp]

/-! ### C10: uppercase command names are unreachable at dispatch -/

theorem isUpper_toLower_false (c : Char) : (Char.toLower c).isUpper = false := by
  simp only [Char.toLower]
  split
  · rename_i h
    have hv : (Char.toNat c + 32).isValidChar := by
      left
      have := h.2
      omega
    have ht : (Char.ofNat (Char.toNat c + 32)).toNat = Char.toNat c + 32 := by
      rw [Char.ofNat, dif_pos hv]
      rfl
    simp only [Char.isUpper]
    have h90 : ¬ ((Char.ofNat (Char.toNat c + 32)).val ≤ 90) := by
      rw [UInt32.le_def, BitVec.le_def]
      have h90n : (UInt32.toBitVec 90).toNat = 90 := rfl
      have hval : (Char.ofNat (Char.toNat c + 32)).val.toBitVec.toNat = Char.toNat c + 32 := ht
      rw [h90n, hval]
      omega
    simp [h90]
  · rename_i h
    simp only [Char.isUpper]
    rw [Bool.and_eq_false_iff]
    by_cases h65 : (65 : UInt32) ≤ c.val
    · right
      rw [decide_eq_false_iff_not]
      rw [UInt32.le_def, BitVec.le_def] at h65 ⊢
      have h65n : (UInt32.toBitVec 65).toNat = 65 := rfl
      have h90n : (UInt32.toBitVec 90).toNat = 90 := rfl
      rw [h65n] at h65
      rw [h90n]
      have hcn : Char.toNat c = c.val.toBitVec.toNat := rfl
      rw [hcn] at h
      omega
    · left
      rw [decide_eq_false_iff_not]
      exact h65

theorem not_upper_of_fix (s : String) (hfix : s = toLowerStr s) (c : Char)
    (hc : c ∈ s.data) : c.isUpper = false := by
  have hd : s.data = s.data.map Char.toLower := congrArg String.data hfix
  rw [hd] at hc
  rcases List.mem_map.mp hc with ⟨c0, _, rfl⟩
  exact isUpper_toLower_false c0

theorem lookup_none_of_upper (reg : Registry) (nm : String)
    (hkl : ∀ p ∈ reg, p.1 = toLowerStr p.1)
    (hup : nm.data.any Char.isUpper = true) :
    lookupReg reg nm = none := by
  rw [lookup_none_iff]
  intro hmem
  rcases List.mem_map.mp hmem with ⟨p, hp, hpk⟩
  rcases List.any_eq_true.mp hup with ⟨c, hc, hcu⟩
  have hfix : p.1 = toLowerStr p.1 := hkl p hp
  have hfalse : c.isUpper = false :=
    not_upper_of_fix p.1 hfix c (by rw [hpk]; exact hc)
  rw [hcu] at hfalse
  cases hfalse

/-- Claim C10: a registered runnable command whose `Name()` contains an
uppercase letter is stored under its lowercased name, while dispatch
looks the first argument up verbatim: dispatching with the exact
`Name()` takes the unknown-subcommand failure path, and the command's
run callback is only reachable by the lowercased spelling. The
`∀ p ∈ reg` hypothesis is the key invariant `Add` maintains (see
`add_preserves_keysLowered`). -/
theorem uppercase_name_unreachable (prog appShort nm : String) (reg : Registry)
    (c : Command) (rest : List String)
    (hkl : ∀ p ∈ reg, p.1 = toLowerStr p.1)
    (hnd : (reg.map Prod.fst).Nodup)
    (hmem : (toLowerStr nm, c) ∈ reg)
    (_hname : c.name = nm)
    (hup : nm.data.any Char.isUpper = true)
    (hrun : c.runnable = true) :
    Run prog appShort reg (nm :: rest) =
      ⟨"", unknownMsg prog nm, some 1, none, none⟩ ∧
      (Run prog appShort reg (toLowerStr nm :: rest)).invoked = some (toLowerStr nm) := by
  constructor
  · have h0 : lookupReg reg nm = none := lookup_none_of_upper reg nm hkl hup
    simp only [Run, h0]
  · have h1 : lookupReg reg (toLowerStr nm) = some c := mem_lookup reg _ c hnd hmem
    simp only [Run, h1, hrun]
    by_cases hp : (c.run rest).panicked
    · simp [hp]
    · rcases he : (c.run rest).err with _ | e
      · simp [hp, he]
      · simp [hp, he]

/-- Witness for C10 at a concrete input: `tcUp` has `Name() = "Build"`
and is stored under `"build"`. -/
theorem uppercase_name_unreachable_witness :
    (∀ p ∈ [("build", tcUp)], p.1 = toLowerStr p.1) ∧
      ("Build".data.any Char.isUpper = true) ∧
      Run "app" "sh" [("build", tcUp)] ["Build"] =
        ⟨"", unknownMsg "app" "Build", some 1, none, none⟩ ∧
      (Run "app" "sh" [("build", tcUp)] [toLowerStr "Build"]).invoked =
        some (toLowerStr "Build") := by
  have h := uppercase_name_unreachable "app" "sh" "Build" [("build", tcUp)] tcUp []
    (by decide) (by decide) (List.mem_singleton.mpr rfl) rfl (by decide) rfl
  exact ⟨by decide, by decide, h.1, h.2⟩

/-! ### The registry invariants maintained by Add -/

theorem toLower_eq_self_of_not_upper (c : Char) (h : c.isUpper = false) :
    Char.toLower c = c := by
  simp only [Char.toLower]
  split
  · rename_i hg
    exfalso
    have h65 : (65 : UInt32) ≤ c.val := by
      rw [UInt32.le_def, BitVec.le_def]
      have h65n : (UInt32.toBitVec 65).toNat = 65 := rfl
      rw [h65n]
      exact hg.1
    have h90 : c.val ≤ (90 : UInt32) := by
      rw [UInt32.le_def, BitVec.le_def]
      have h90n : (UInt32.toBitVec 90).toNat = 90 := rfl
      rw [h90n]
      exact hg.2
    simp only [Char.isUpper, Bool.and_eq_false_iff, decide_eq_false_iff_not] at h
    rcases h with h | h
    · exact h h65
    · exact h h90
  · rfl

theorem toLower_toLower (c : Char) : Char.toLower (Char.toLower c) = Char.toLower c :=
  toLower_eq_self_of_not_upper _ (isUpper_toLower_false c)

theorem toLowerStr_idem (s : String) : toLowerStr (toLowerStr s) = toLowerStr s := by
  apply congrArg String.mk
  show (s.data.map Char.toLower).map Char.toLower = s.data.map Char.toLower
  rw [List.map_map]
  exact List.map_congr_left (fun a _ => toLower_toLower a)

/-- `Add` keeps every key lowercase-fixed: the well-formedness invariant
assumed by `uppercase_name_unreachable`. -/
theorem add_preserves_keysLowered (reg reg2 : Registry) (c : Command)
    (h : Add reg c = .ok reg2) (hkl : ∀ p ∈ reg, p.1 = toLowerStr p.1) :
    ∀ p ∈ reg2, p.1 = toLowerStr p.1 := by
  unfold Add at h
  rcases hl : lookupReg reg (toLowerStr c.name) with _ | d
  · rw [hl] at h
    simp only [Except.ok.injEq] at h
    subst h
    intro p hp
    rcases List.mem_append.mp hp with hp | hp
    · exact hkl p hp
    · rw [List.mem_singleton] at hp
      subst hp
      exact (toLowerStr_idem c.name).symm
  · rw [hl] at h
    simp at h

/-- `Add` keeps the registry keys unique, as a Go map does. -/
theorem add_preserves_nodup (reg reg2 : Registry) (c : Command)
    (h : Add reg c = .ok reg2) (hnd : (reg.map Prod.fst).Nodup) :
    (reg2.map Prod.fst).Nodup := by
  unfold Add at h
  rcases hl : lookupReg reg (toLowerStr c.name) with _ | d
  · rw [hl] at h
    simp only [Except.ok.injEq] at h
    subst h
    rw [List.map_append]
    refine List.Nodup.append hnd (by simp) ?_
    intro a ha hb
    simp only [List.map_cons, List.map_nil, List.mem_singleton] at hb
    subst hb
    rw [lookup_none_iff] at hl
    exact hl ha
  · rw [hl] at h
    simp at h

end Cmdapp
